import Mathlib

/-!
Verification of the money-app repository's core logic against its
natural-language specification.

The development shallowly embeds the TypeScript source:
  * calendar days are modelled as integers (days since the Unix epoch, UTC);
    the JavaScript `Date` manipulations in the source all normalise to local
    midnight before comparing, so day arithmetic is faithful to the source
    under a UTC environment;
  * monetary amounts are modelled as integers (exact arithmetic); the source
    only adds and negates amounts, so the algebra is unchanged;
  * JavaScript objects are modelled as structures, `null`/`undefined` as
    `Option`, fallible requests as `Except`.
-/

/-- Upstream taxonomy attached to a transaction
(`personal_finance_category` in the source). -/
structure PersonalFinanceCategory where
  primary : String
  detailed : String
deriving DecidableEq

/-- A transaction as it appears throughout the source (`Transaction`
interfaces in `AccountDetailsModal` and `SpendingAnalysis`). `date` is the
calendar day (days since epoch), `amount` the signed amount with the
upstream convention positive = money out. -/
structure Tx where
  account_id : String := ""
  date : Int
  name : String := ""
  amount : Int
  category : Option (List String) := none
  personal_finance_category : Option PersonalFinanceCategory := none
deriving DecidableEq

/-- An account (the fields the embedded code reads). -/
structure Account where
  account_id : String := ""
  name : String := ""
  institution_name : String := ""
  type : String := ""
  subtype : String := ""
deriving DecidableEq

/-! ### Integer day ranges -/

/-- The ascending list of days `lo, lo+1, ..., hi` (empty when `lo > hi`). -/
def dayRange (lo hi : Int) : List Int :=
  (List.range (hi + 1 - lo).toNat).map (fun (i : Nat) => lo + (i : Int))

theorem mem_dayRange {lo hi d : Int} : d ∈ dayRange lo hi ↔ lo ≤ d ∧ d ≤ hi := by
  unfold dayRange
  simp only [List.mem_map, List.mem_range]
  constructor
  · rintro ⟨i, hi', rfl⟩
    omega
  · rintro ⟨h1, h2⟩
    exact ⟨(d - lo).toNat, by omega, by omega⟩

theorem dayRange_eq_nil {lo hi : Int} (h : hi < lo) : dayRange lo hi = [] := by
  unfold dayRange
  have h1 : (hi + 1 - lo).toNat = 0 := by omega
  rw [h1]
  rfl

theorem dayRange_cons {lo hi : Int} (h : lo ≤ hi) :
    dayRange lo hi = lo :: dayRange (lo + 1) hi := by
  unfold dayRange
  have h1 : (hi + 1 - lo).toNat = (hi + 1 - (lo + 1)).toNat + 1 := by omega
  rw [h1, List.range_succ_eq_map, List.map_cons, List.map_map]
  refine congrArg₂ List.cons (by simp) ?_
  apply List.map_congr_left
  intro i _
  simp only [Function.comp_apply, Nat.cast_succ]
  omega

theorem dayRange_snoc {lo hi : Int} (h : lo ≤ hi) :
    dayRange lo hi = dayRange lo (hi - 1) ++ [hi] := by
  unfold dayRange
  have h1 : (hi + 1 - lo).toNat = (hi - 1 + 1 - lo).toNat + 1 := by omega
  rw [h1, List.range_succ, List.map_append, List.map_cons, List.map_nil]
  refine congrArg₂ (· ++ ·) rfl ?_
  have h2 : lo + ((hi - 1 + 1 - lo).toNat : Int) = hi := by omega
  rw [h2]

/-! ### Per-day net amounts -/

/-- Net transaction amount on a calendar day: the sum of the amounts of all
transactions dated on that day (the `txMap` accumulated in
`calculateBalanceHistory`). -/
def txNet (txs : List Tx) (d : Int) : Int :=
  ((txs.filter (fun tx => tx.date == d)).map Tx.amount).sum

/-- Sum of `net` over the day interval `[a, b]`. -/
def sumNet (net : Int → Int) (a b : Int) : Int :=
  ((dayRange a b).map net).sum

theorem sumNet_nil {net : Int → Int} {a b : Int} (h : b < a) : sumNet net a b = 0 := by
  unfold sumNet
  rw [dayRange_eq_nil h]
  rfl

theorem sumNet_cons {net : Int → Int} {a b : Int} (h : a ≤ b) :
    sumNet net a b = net a + sumNet net (a + 1) b := by
  unfold sumNet
  rw [dayRange_cons h]
  simp

theorem sumNet_snoc {net : Int → Int} {a b : Int} (h : a ≤ b) :
    sumNet net a b = sumNet net a (b - 1) + net b := by
  unfold sumNet
  rw [dayRange_snoc h]
  simp

/-! ### The Balance Reconstructor (`calculateBalanceHistory`, part_006) -/

/-- Date of the oldest transaction in the list, if any (the source sorts the
list by date descending and reads the date of the last element; that value is
the minimum of the dates). -/
def minDate : List Tx → Option Int
  | [] => none
  | t :: ts =>
      match minDate ts with
      | none => some t.date
      | some m => some (min t.date m)

/-- The hard stop (`cutoffTime`): the supplied known-earliest date when
present, otherwise the oldest transaction date. -/
def cutoffOf (knownEarliest : Option Int) (txs : List Tx) : Option Int :=
  match knownEarliest with
  | some c => some c
  | none => minDate txs

/-- The loop's break test: `cutoffTime !== null && loopDate < cutoffTime`. -/
def cutoffBreak (cutoff : Option Int) (day : Int) : Bool :=
  match cutoff with
  | some c => decide (day < c)
  | none => false

/-- Iteration cap of the backward walk (`MAX_DAYS = 365 * 10`). -/
def MAX_DAYS : Nat := 3650

/-- The backward walk of `calculateBalanceHistory`: starting at `day` with
running balance `bal`, while the day is not before `startD` and fuel
(the safety counter budget) remains, stop if the day is before the cutoff,
emit `(day, bal)` whenever `day ≤ endD` (the source `unshift`s, so
chronological order results), then undo the day's net amount and step one day
back. -/
def walk (net : Int → Int) (cutoff : Option Int) (startD endD : Int) :
    Nat → Int → Int → List (Int × Int)
  | 0, _, _ => []
  | fuel + 1, day, bal =>
      if day < startD then []
      else if cutoffBreak cutoff day then []
      else
        walk net cutoff startD endD fuel (day - 1) (bal + net day) ++
          (if day ≤ endD then [(day, bal)] else [])

/-- `calculateBalanceHistory` (part_006 lines 747-827), parametrised by the
ambient state it reads: `today` (the local date of `new Date()`) and the
display window `[startD, endD]` from `getDateRange(selectedRange)`. -/
def calculateBalanceHistory (currentBalance : Int) (txs : List Tx)
    (knownEarliest : Option Int) (today startD endD : Int) : List (Int × Int) :=
  walk (txNet txs) (cutoffOf knownEarliest txs) startD endD MAX_DAYS today currentBalance

/-- First day the walk can emit: the latest of the window start, the fuel
floor, and the cutoff (when present). -/
def walkLo (cutoff : Option Int) (startD : Int) (fuel : Nat) (day : Int) : Int :=
  max (max startD (day + 1 - fuel)) (cutoff.getD (day + 1 - fuel))

theorem walkLo_succ (cutoff : Option Int) (startD : Int) (fuel : Nat) (day : Int) :
    walkLo cutoff startD (fuel + 1) day = walkLo cutoff startD fuel (day - 1) := by
  unfold walkLo
  have h : day + 1 - ((fuel : Int) + 1) = day - 1 + 1 - fuel := by omega
  simp [h]

/-- Closed form of the backward walk: it emits exactly the days of
`[walkLo, min day endD]` in ascending order, each carrying the initial
balance plus the net amounts of the strictly later days up to the walk's
starting day. -/
theorem walk_eq (net : Int → Int) (cutoff : Option Int) (startD endD : Int) :
    ∀ (fuel : Nat) (day bal : Int),
      walk net cutoff startD endD fuel day bal =
        (dayRange (walkLo cutoff startD fuel day) (min day endD)).map
          (fun d => (d, bal + sumNet net (d + 1) day)) := by
  intro fuel
  induction fuel with
  | zero =>
      intro day bal
      have hlo : day < walkLo cutoff startD 0 day := by
        unfold walkLo
        rcases cutoff with _ | c <;>
          simp only [Option.getD_none, Option.getD_some] <;> omega
      rw [walk, dayRange_eq_nil (by omega : min day endD < walkLo cutoff startD 0 day)]
      rfl
  | succ fuel ih =>
      intro day bal
      rw [walk]
      by_cases hstart : day < startD
      · have hlo : day < walkLo cutoff startD (fuel + 1) day := by
          unfold walkLo
          rcases cutoff with _ | c <;>
            simp only [Option.getD_none, Option.getD_some] <;> omega
        rw [if_pos hstart,
          dayRange_eq_nil (by omega : min day endD < walkLo cutoff startD (fuel + 1) day)]
        rfl
      · rw [if_neg hstart]
        by_cases hcut : cutoffBreak cutoff day = true
        · have hlo : day < walkLo cutoff startD (fuel + 1) day := by
            unfold walkLo
            rcases cutoff with _ | c
            · simp [cutoffBreak] at hcut
            · simp only [cutoffBreak, decide_eq_true_eq] at hcut
              simp only [Option.getD_some]
              omega
          rw [if_pos hcut,
            dayRange_eq_nil (by omega : min day endD < walkLo cutoff startD (fuel + 1) day)]
          rfl
        · rw [if_neg hcut, ih, walkLo_succ]
          have hcut' : ∀ c, cutoff = some c → c ≤ day := by
            intro c hc
            subst hc
            simp only [cutoffBreak, decide_eq_true_eq] at hcut
            omega
          have hlole : walkLo cutoff startD fuel (day - 1) ≤ day := by
            unfold walkLo
            rcases cutoff with _ | c
            · simp only [Option.getD_none]
              omega
            · have := hcut' c rfl
              simp only [Option.getD_some]
              omega
          by_cases hend : day ≤ endD
          · rw [if_pos hend]
            have hmin1 : min (day - 1) endD = day - 1 := by omega
            have hmin2 : min day endD = day := by omega
            rw [hmin1, hmin2]
            by_cases hlo2 : walkLo cutoff startD fuel (day - 1) ≤ day - 1
            · rw [dayRange_snoc (by omega : walkLo cutoff startD fuel (day - 1) ≤ day)]
              rw [List.map_append]
              congr 1
              · apply List.map_congr_left
                intro d hd
                rw [mem_dayRange] at hd
                have : bal + net day + sumNet net (d + 1) (day - 1) =
                    bal + sumNet net (d + 1) day := by
                  rw [sumNet_snoc (by omega : d + 1 ≤ day)]
                  ring
                simp [this]
              · simp [sumNet_nil (by omega : day < day + 1)]
            · have h1 : day - 1 < walkLo cutoff startD fuel (day - 1) := by omega
              have h2 : walkLo cutoff startD fuel (day - 1) = day := by omega
              rw [dayRange_eq_nil h1, h2]
              rw [dayRange_cons (le_refl day), dayRange_eq_nil (by omega : day < day + 1)]
              simp [sumNet_nil (by omega : day < day + 1)]
          · rw [if_neg hend]
            have hmin1 : min (day - 1) endD = endD := by omega
            have hmin2 : min day endD = endD := by omega
            rw [hmin1, hmin2, List.append_nil]
            apply List.map_congr_left
            intro d hd
            rw [mem_dayRange] at hd
            have : bal + net day + sumNet net (d + 1) (day - 1) =
                bal + sumNet net (d + 1) day := by
              rw [sumNet_snoc (by omega : d + 1 ≤ day)]
              ring
            simp [this]

/-! ### Properties of the reconstructed series -/

theorem mem_calculateBalanceHistory {B : Int} {txs : List Tx} {kb : Option Int}
    {today startD endD d b : Int} :
    (d, b) ∈ calculateBalanceHistory B txs kb today startD endD ↔
      walkLo (cutoffOf kb txs) startD MAX_DAYS today ≤ d ∧ d ≤ min today endD ∧
        b = B + sumNet (txNet txs) (d + 1) today := by
  rw [calculateBalanceHistory, walk_eq]
  constructor
  · intro h
    rcases List.mem_map.1 h with ⟨d', hd', heq⟩
    rcases mem_dayRange.1 hd' with ⟨hl, hr⟩
    injection heq with e1 e2
    subst e1
    exact ⟨hl, hr, e2.symm⟩
  · rintro ⟨h1, h2, rfl⟩
    exact List.mem_map.2 ⟨d, mem_dayRange.2 ⟨h1, h2⟩, rfl⟩

theorem minDate_le_of {txs : List Tx} {today : Int}
    (h : ∀ tx ∈ txs, tx.date ≤ today) :
    ∀ m, minDate txs = some m → m ≤ today := by
  induction txs with
  | nil =>
      intro m hm
      simp [minDate] at hm
  | cons t ts ih =>
      intro m hm
      have ht : t.date ≤ today := h t (by simp)
      rcases hts : minDate ts with _ | m'
      · rw [minDate, hts] at hm
        injection hm with e
        omega
      · rw [minDate, hts] at hm
        injection hm with e
        have : min t.date m' ≤ t.date := min_le_left _ _
        omega

theorem cutoffOf_le {kb : Option Int} {txs : List Tx} {today : Int}
    (htx : ∀ tx ∈ txs, tx.date ≤ today)
    (hkb : ∀ c, kb = some c → c ≤ today) :
    ∀ c, cutoffOf kb txs = some c → c ≤ today := by
  intro c hc
  rcases kb with _ | k
  · rw [cutoffOf] at hc
    exact minDate_le_of htx c hc
  · rw [cutoffOf] at hc
    injection hc with e
    exact e ▸ hkb k rfl

theorem walkLo_le_of {cutoff : Option Int} {startD today : Int} {fuel : Nat}
    (hf : 1 ≤ fuel) (h1 : startD ≤ today)
    (hcut : ∀ c, cutoff = some c → c ≤ today) :
    walkLo cutoff startD fuel today ≤ today := by
  unfold walkLo
  rcases cutoff with _ | c
  · simp only [Option.getD_none]
    omega
  · have := hcut c rfl
    simp only [Option.getD_some]
    omega

/-- C1: for a display window containing today (and inputs from the system's
operating regime: every transaction dated on or before today, and a supplied
boundary, when present, not in the future), the reconstructed series has the
point `(today, B)`, and any two points on consecutive days `d` and `d + 1`
satisfy `S[d] = S[d + 1] + netAmount(d + 1)`. -/
theorem balance_reconstruction_consistency
    (B : Int) (txs : List Tx) (kb : Option Int) (today startD endD : Int)
    (hwin1 : startD ≤ today) (hwin2 : today ≤ endD)
    (htx : ∀ tx ∈ txs, tx.date ≤ today)
    (hkb : ∀ c, kb = some c → c ≤ today) :
    (today, B) ∈ calculateBalanceHistory B txs kb today startD endD ∧
      ∀ d b b', (d, b) ∈ calculateBalanceHistory B txs kb today startD endD →
        (d + 1, b') ∈ calculateBalanceHistory B txs kb today startD endD →
        b = b' + txNet txs (d + 1) := by
  constructor
  · rw [mem_calculateBalanceHistory]
    refine ⟨?_, ?_, ?_⟩
    · exact walkLo_le_of (by norm_num [MAX_DAYS]) hwin1 (cutoffOf_le htx hkb)
    · omega
    · rw [sumNet_nil (by omega : today < today + 1)]
      ring
  · intro d b b' h1 h2
    rw [mem_calculateBalanceHistory] at h1 h2
    rcases h1 with ⟨_, _, rfl⟩
    rcases h2 with ⟨_, hd2, rfl⟩
    rw [sumNet_cons (by omega : d + 1 ≤ today)]
    ring

/-- Witness for C1 at a concrete input: balance 5, one transaction of 3
dated today (= day 100), window `[99, 100]`, no boundary. -/
theorem balance_reconstruction_consistency_witness :
    ((100 : Int), (5 : Int)) ∈
      calculateBalanceHistory 5 [{ date := 100, amount := 3 }] none 100 99 100 :=
  (balance_reconstruction_consistency 5 [{ date := 100, amount := 3 }] none 100 99 100
    (by decide) (by decide) (by decide) (fun c h => Option.noConfusion h)).1

/-- C2 counterexample: with no boundary and a non-empty transaction list
(one transaction dated day 98, window `[95, 100]`, today = 100) the series
has no point for day 95 even though 95 lies in `[start, end]`: the code cuts
the walk off at the oldest transaction date. -/
theorem window_containment_cex :
    calculateBalanceHistory 0 [{ date := 98, amount := 7 }] none 100 95 100 =
      [(98, 0), (99, 0), (100, 0)] ∧
    (95 : Int) ∉ (calculateBalanceHistory 0 [{ date := 98, amount := 7 }]
        none 100 95 100).map Prod.fst := by
  refine ⟨rfl, by decide⟩

/-- C2 (amended): with the window end equal to today, the dates of the
series are exactly the days of `[lo, today]` in ascending order, one point
per day, where `lo` is the latest of the requested start, the iteration-cap
floor `today - 3649`, and the effective boundary — the supplied boundary if
given, otherwise the oldest transaction date when the list is non-empty. -/
theorem window_containment_amended (B : Int) (txs : List Tx) (kb : Option Int)
    (today startD : Int) :
    (calculateBalanceHistory B txs kb today startD today).map Prod.fst =
      dayRange (walkLo (cutoffOf kb txs) startD MAX_DAYS today) today := by
  rw [calculateBalanceHistory, walk_eq, min_self, List.map_map]
  exact List.map_id _

/-- C3 counterexample: balance 1000, one transaction of 50 dated today
(= day 100), boundary 99, window `[98, 100]`. The series is
`[(99, 1050), (100, 1000)]`; the claimed relation
`bal(100) = bal(99) + net(100)` would require `1000 = 1050 + 50`. -/
theorem adjacent_points_cex :
    calculateBalanceHistory 1000 [{ date := 100, amount := 50 }] (some 99) 100 98 100 =
      [(99, 1050), (100, 1000)] ∧
    txNet [{ date := 100, amount := 50 }] 100 = 50 ∧
    ¬ ((1000 : Int) = 1050 + txNet [{ date := 100, amount := 50 }] 100) := by
  refine ⟨rfl, rfl, by decide⟩

/-- C3 (amended): for any two adjacent points of the reconstructed series on
consecutive days `d` and `d + 1`, the earlier balance equals the later one
plus the later day's net amount: `bal_d = bal_(d+1) + net(d+1)`
(equivalently `bal_(d+1) = bal_d - net(d+1)`), for all inputs. -/
theorem adjacent_points_relation (B : Int) (txs : List Tx) (kb : Option Int)
    (today startD endD d b b' : Int)
    (h1 : (d, b) ∈ calculateBalanceHistory B txs kb today startD endD)
    (h2 : (d + 1, b') ∈ calculateBalanceHistory B txs kb today startD endD) :
    b = b' + txNet txs (d + 1) := by
  rw [mem_calculateBalanceHistory] at h1 h2
  rcases h1 with ⟨_, _, rfl⟩
  rcases h2 with ⟨_, hd2, rfl⟩
  rw [sumNet_cons (by omega : d + 1 ≤ today)]
  ring

/-- Witness for the amended C3 at a concrete input: the adjacent points
`(99, 1050)` and `(100, 1000)` of the series from the C3 scenario satisfy
`1050 = 1000 + net(100)`. -/
theorem adjacent_points_relation_witness :
    (1050 : Int) = 1000 + txNet [{ date := 100, amount := 50 }] 100 :=
  adjacent_points_relation 1000 [{ date := 100, amount := 50 }] (some 99) 100 98 100
    99 1050 1000 (by decide) (by decide)

/-! ### The History Boundary Estimator (part_006, `fetchData`) -/

/-- The preset time ranges of the account-details modal. -/
inductive TimeRange where
  | r1D | r1W | r30D | r3M | r6M | r1Y | r2Y | rYTD | rMAX | rCUSTOM
deriving DecidableEq

/-- The ranges treated as "large" by the estimator
(`['6M', '1Y', '2Y', 'YTD', 'MAX'].includes(selectedRange)`). -/
def largeRanges : List TimeRange :=
  [.r6M, .r1Y, .r2Y, .rYTD, .rMAX]

/-- One fetch observation as seen by the boundary-update code: the selected
range, the requested window start day, the returned transactions, the
reported `total_transactions`, and the server's optional
`earliest_transaction_date`. -/
structure FetchObs where
  range : TimeRange
  startDay : Int
  txs : List Tx
  total : Nat
  apiEarliest : Option Int
deriving DecidableEq

/-- The fallback promotion heuristic (part_006 lines 663-736): when the full
window was returned (`length >= total_transactions`) and is non-empty, and
the range is large, and the oldest transaction is strictly more than one day
after the requested start, set the boundary to that oldest date; otherwise
leave the state unchanged. -/
def promoteBoundary (obs : FetchObs) (st : Option Int) : Option Int :=
  if obs.total ≤ obs.txs.length ∧ 0 < obs.txs.length then
    match minDate obs.txs with
    | some oldest =>
        if obs.range ∈ largeRanges then
          if obs.startDay + 1 < oldest then some oldest else st
        else st
    | none => st
  else st

/-- The full boundary update applied after a fetch (part_006 lines 649-737):
take the server-provided earliest date when present, otherwise run the
fallback heuristic. -/
def observe (st : Option Int) (obs : FetchObs) : Option Int :=
  match obs.apiEarliest with
  | some e => some e
  | none => promoteBoundary obs st

theorem minDate_cons (t : Tx) (ts : List Tx) :
    ∃ m, minDate (t :: ts) = some m ∧ (∀ u ∈ t :: ts, m ≤ u.date) := by
  induction ts generalizing t with
  | nil =>
      refine ⟨t.date, rfl, ?_⟩
      intro u hu
      rcases List.mem_cons.1 hu with rfl | hu'
      · exact le_refl _
      · cases hu'
  | cons u us ih =>
      rcases ih u with ⟨m, hm, hle⟩
      refine ⟨min t.date m, ?_, ?_⟩
      · rw [minDate, hm]
      · intro v hv
        rcases List.mem_cons.1 hv with rfl | hv'
        · exact min_le_left _ _
        · exact le_trans (min_le_right _ _) (hle v hv')

theorem promoteBoundary_minDate_none {obs : FetchObs} {st : Option Int}
    (h : minDate obs.txs = none) : promoteBoundary obs st = st := by
  unfold promoteBoundary
  rw [h]
  split
  · rfl
  · rfl

theorem promoteBoundary_minDate_some {obs : FetchObs} {st : Option Int}
    {oldest : Int} (h : minDate obs.txs = some oldest) :
    promoteBoundary obs st =
      if obs.total ≤ obs.txs.length ∧ 0 < obs.txs.length then
        if obs.range ∈ largeRanges then
          if obs.startDay + 1 < oldest then some oldest else st
        else st
      else st := by
  unfold promoteBoundary
  rw [h]

theorem observe_api_none {st : Option Int} {obs : FetchObs}
    (h : obs.apiEarliest = none) : observe st obs = promoteBoundary obs st := by
  unfold observe
  rw [h]

theorem observe_api_some {st : Option Int} {obs : FetchObs} {e : Int}
    (h : obs.apiEarliest = some e) : observe st obs = some e := by
  unfold observe
  rw [h]

/-- C4 counterexample scenario, first observation: a six-month window
starting on day 19818 returning its single transaction, dated day 19950. -/
def obsSixMonth : FetchObs :=
  { range := .r6M, startDay := 19818, txs := [{ date := 19950, amount := 10 }],
    total := 1, apiEarliest := none }

/-- C4 counterexample scenario, second observation: a one-year window
starting on day 19635 returning both transactions, the older dated 19700. -/
def obsOneYear : FetchObs :=
  { range := .r1Y, startDay := 19635,
    txs := [{ date := 19700, amount := 5 }, { date := 19950, amount := 10 }],
    total := 2, apiEarliest := none }

/-- C4 counterexample: within one session the boundary is first set to day
19950 by a qualifying six-month observation, then a later one-year
observation that reveals an older transaction moves it to day 19700 — an
earlier date, so a set estimate is moved earlier by an update. -/
theorem boundary_monotonicity_cex :
    observe none obsSixMonth = some 19950 ∧
    observe (observe none obsSixMonth) obsOneYear = some 19700 ∧
    (19700 : Int) < 19950 := by
  decide

/-- C4 (amended): a boundary update either leaves the state unchanged, or
overwrites it with the server-provided earliest date, or — for a qualifying
large-window observation — overwrites it with the observation's oldest
transaction date; no comparison with the current estimate is made, so an
overwrite may move the boundary earlier as well as later. -/
theorem boundary_update_overwrites (st : Option Int) (obs : FetchObs) :
    observe st obs = st ∨
    (∃ e, obs.apiEarliest = some e ∧ observe st obs = some e) ∨
    (∃ o, minDate obs.txs = some o ∧ observe st obs = some o ∧
      obs.range ∈ largeRanges ∧ obs.total ≤ obs.txs.length ∧
      obs.startDay + 1 < o) := by
  rcases hapi : obs.apiEarliest with _ | e
  · rw [observe_api_none hapi]
    rcases hmin : minDate obs.txs with _ | oldest
    · left
      exact promoteBoundary_minDate_none hmin
    · rw [promoteBoundary_minDate_some hmin]
      by_cases hgate : obs.total ≤ obs.txs.length ∧ 0 < obs.txs.length
      · rw [if_pos hgate]
        by_cases hlarge : obs.range ∈ largeRanges
        · rw [if_pos hlarge]
          by_cases hgap : obs.startDay + 1 < oldest
          · right; right
            exact ⟨oldest, rfl, by rw [if_pos hgap], hlarge, hgate.1, hgap⟩
          · left; rw [if_neg hgap]
        · left; rw [if_neg hlarge]
      · left; rw [if_neg hgate]
  · right; left
    exact ⟨e, rfl, observe_api_some hapi⟩

/-- C5: the fallback promotes exactly when the returned set is non-empty,
the window is one of the large presets, the returned count is at least the
reported total, and the oldest returned date is strictly more than one day
after the requested window start — in which case the boundary becomes that
oldest date; and no short preset ever promotes. -/
theorem boundary_promotion_rule (obs : FetchObs) (st : Option Int) :
    (promoteBoundary obs st =
      match minDate obs.txs with
      | none => st
      | some oldest =>
          if obs.range ∈ largeRanges ∧ obs.total ≤ obs.txs.length ∧
              obs.startDay + 1 < oldest
          then some oldest else st) ∧
    (obs.range ∈ ([.r1D, .r1W, .r30D, .r3M] : List TimeRange) →
      promoteBoundary obs st = st) := by
  have hmain : promoteBoundary obs st =
      match minDate obs.txs with
      | none => st
      | some oldest =>
          if obs.range ∈ largeRanges ∧ obs.total ≤ obs.txs.length ∧
              obs.startDay + 1 < oldest
          then some oldest else st := by
    rcases htx : obs.txs with _ | ⟨t, ts⟩
    · have hnone : minDate obs.txs = none := by rw [htx]; rfl
      rw [promoteBoundary_minDate_none hnone]
      rfl
    · rcases minDate_cons t ts with ⟨m, hm, _⟩
      have hsome : minDate obs.txs = some m := by rw [htx]; exact hm
      rw [promoteBoundary_minDate_some hsome, htx, hm]
      show (if obs.total ≤ (t :: ts).length ∧ 0 < (t :: ts).length then
              if obs.range ∈ largeRanges then
                if obs.startDay + 1 < m then some m else st
              else st
            else st) =
          (if obs.range ∈ largeRanges ∧ obs.total ≤ (t :: ts).length ∧
              obs.startDay + 1 < m then some m else st)
      have hpos : 0 < (t :: ts).length := by simp
      split_ifs <;> first | rfl | tauto
  refine ⟨hmain, ?_⟩
  intro hshort
  have hnotlarge : obs.range ∉ largeRanges := by
    simp only [List.mem_cons, List.not_mem_nil, or_false] at hshort
    rcases hshort with h | h | h | h <;> rw [h] <;> decide
  rw [hmain]
  rcases hmin : minDate obs.txs with _ | oldest
  · rfl
  · exact if_neg (by tauto)

/-- Witness for C5's short-preset conjunct at a concrete input: a 30-day
observation never promotes. -/
theorem boundary_promotion_rule_witness :
    promoteBoundary
      { range := .r30D, startDay := 0, txs := [{ date := 5, amount := 1 }],
        total := 1, apiEarliest := none } (some 7) = some 7 :=
  (boundary_promotion_rule
    { range := .r30D, startDay := 0, txs := [{ date := 5, amount := 1 }],
      total := 1, apiEarliest := none } (some 7)).2 (by decide)

/-! ### The Transaction Fetcher (`src/app/api/get_transactions/route.ts`) -/

/-- The pagination loop of the `get_transactions` route `POST` handler.
`src` models the upstream `transactionsGet` call: for a page offset it
returns the page's transactions, or an error. Per the source: append the
page; stop when a page returns fewer than the page size (500); stop when the
advanced offset exceeds the safety cap (10000); on a request error, fail the
whole fetch if the offset is still 0, otherwise return what was accumulated.
The outer try/catch turns a thrown first-page error into an error response
with no transactions. -/
def fetchLoop (src : Nat → Except Unit (List Tx)) (offset : Nat) (acc : List Tx) :
    Except Unit (List Tx) :=
  match src offset with
  | .error _ => if offset = 0 then .error () else .ok acc
  | .ok page =>
      if page.length < 500 then .ok (acc ++ page)
      else if offset + 500 > 10000 then .ok (acc ++ page)
      else fetchLoop src (offset + 500) (acc ++ page)
termination_by 10001 - offset
decreasing_by
  simp_wf
  omega

theorem fetchLoop_err {src : Nat → Except Unit (List Tx)} {offset : Nat}
    {acc : List Tx} (h : src offset = .error ()) :
    fetchLoop src offset acc = if offset = 0 then .error () else .ok acc := by
  rw [fetchLoop, h]

theorem fetchLoop_ok {src : Nat → Except Unit (List Tx)} {offset : Nat}
    {acc page : List Tx} (h : src offset = .ok page) :
    fetchLoop src offset acc =
      if page.length < 500 then .ok (acc ++ page)
      else if offset + 500 > 10000 then .ok (acc ++ page)
      else fetchLoop src (offset + 500) (acc ++ page) := by
  rw [fetchLoop, h]

theorem fetchLoop_full_aux (src : Nat → Except Unit (List Tx))
    (hfull : ∀ o, ∃ p, src o = .ok p ∧ p.length = 500) :
    ∀ (m n : Nat), n + m = 20 → ∀ acc : List Tx,
      ∃ l, fetchLoop src (500 * n) acc = .ok l ∧
        l.length = acc.length + 500 * (21 - n) := by
  intro m
  induction m with
  | zero =>
      intro n hnm acc
      have hn : n = 20 := by omega
      subst hn
      obtain ⟨p, hp, hlen⟩ := hfull (500 * 20)
      rw [fetchLoop_ok hp, if_neg (by omega), if_pos (by omega)]
      exact ⟨acc ++ p, rfl, by simp [hlen]⟩
  | succ m ih =>
      intro n hnm acc
      obtain ⟨p, hp, hlen⟩ := hfull (500 * n)
      rw [fetchLoop_ok hp, if_neg (by omega), if_neg (by omega)]
      have he : 500 * n + 500 = 500 * (n + 1) := by ring
      rw [he]
      obtain ⟨l, hl, hlen'⟩ := ih (n + 1) (by omega) (acc ++ p)
      refine ⟨l, hl, ?_⟩
      rw [hlen']
      simp [hlen]
      omega

/-- C6: against a source that returns a full 500-item page for every
request, the pagination loop terminates at the safety cap: it performs
exactly 21 page requests (offsets 0, 500, ..., 10000) and returns 10500
transactions, rather than looping forever. -/
theorem pagination_terminates_at_cap (src : Nat → Except Unit (List Tx))
    (hfull : ∀ o, ∃ p, src o = .ok p ∧ p.length = 500) :
    ∃ l, fetchLoop src 0 [] = .ok l ∧ l.length = 10500 := by
  obtain ⟨l, hl, hlen⟩ := fetchLoop_full_aux src hfull 20 0 (by omega) []
  exact ⟨l, hl, by simpa using hlen⟩

/-- A source that always returns a full page of 500 zero transactions. -/
def srcAlwaysFull : Nat → Except Unit (List Tx) :=
  fun _ => .ok (List.replicate 500 { date := 0, amount := 0 })

/-- Witness for C6: the always-full source stops at the cap with 10500
transactions. -/
theorem pagination_terminates_at_cap_witness :
    ∃ l, fetchLoop srcAlwaysFull 0 [] = .ok l ∧ l.length = 10500 :=
  pagination_terminates_at_cap srcAlwaysFull
    (fun _ => ⟨List.replicate 500 { date := 0, amount := 0 }, rfl,
      List.length_replicate 500 _⟩)

/-- Concatenation of the pages at indices `j, j+1, ..., j+m-1`, in request
order. -/
def pagesFrom (pageAt : Nat → List Tx) (j : Nat) : Nat → List Tx
  | 0 => []
  | m + 1 => pageAt j ++ pagesFrom pageAt (j + 1) m

theorem fetchLoop_partial_aux (src : Nat → Except Unit (List Tx))
    (pageAt : Nat → List Tx) (k : Nat) (hk1 : 1 ≤ k) (hk20 : k ≤ 20)
    (hfull : ∀ i, i < k → src (500 * i) = .ok (pageAt i) ∧ (pageAt i).length = 500)
    (herr : src (500 * k) = .error ()) :
    ∀ (m j : Nat), j + m = k → ∀ acc : List Tx,
      fetchLoop src (500 * j) acc = .ok (acc ++ pagesFrom pageAt j m) := by
  intro m
  induction m with
  | zero =>
      intro j hjm acc
      have hj : j = k := by omega
      subst hj
      rw [fetchLoop_err herr, if_neg (by omega), pagesFrom, List.append_nil]
  | succ m ih =>
      intro j hjm acc
      have hjk : j < k := by omega
      obtain ⟨hp, hlen⟩ := hfull j hjk
      rw [fetchLoop_ok hp, if_neg (by omega), if_neg (by omega)]
      have he : 500 * j + 500 = 500 * (j + 1) := by ring
      rw [he, ih (j + 1) (by omega) (acc ++ pageAt j), pagesFrom,
        List.append_assoc]

/-- C7: if the very first page request fails the whole fetch fails with an
error and no transactions; if a later page request fails after `k` full
pages succeeded (`1 ≤ k ≤ 20`, so the failing request is actually issued),
the loop stops and returns the `k` accumulated pages as a successful
result. -/
theorem fetch_error_policy (src : Nat → Except Unit (List Tx)) :
    (src 0 = .error () → fetchLoop src 0 [] = .error ()) ∧
    (∀ (k : Nat) (pageAt : Nat → List Tx), 1 ≤ k → k ≤ 20 →
      (∀ i, i < k → src (500 * i) = .ok (pageAt i) ∧ (pageAt i).length = 500) →
      src (500 * k) = .error () →
      fetchLoop src 0 [] = .ok (pagesFrom pageAt 0 k)) := by
  constructor
  · intro h
    rw [fetchLoop_err h]
    rfl
  · intro k pageAt hk1 hk20 hfull herr
    have h := fetchLoop_partial_aux src pageAt k hk1 hk20 hfull herr k 0 (by omega) []
    rw [show (500 * 0 : Nat) = 0 from rfl, List.nil_append] at h
    exact h

/-- A source whose every page request fails. -/
def srcAllError : Nat → Except Unit (List Tx) :=
  fun _ => .error ()

/-- A source that returns one full page at offset 0 and fails afterwards. -/
def srcOneThenError : Nat → Except Unit (List Tx) :=
  fun o => if o = 0 then .ok (List.replicate 500 { date := 0, amount := 0 })
    else .error ()

/-- Witness for C7: a first-page failure yields an error; a failure after
one successful full page yields that page as a successful result. -/
theorem fetch_error_policy_witness :
    fetchLoop srcAllError 0 [] = .error () ∧
    fetchLoop srcOneThenError 0 [] =
      .ok (List.replicate 500 { date := 0, amount := 0 }) := by
  constructor
  · exact (fetch_error_policy srcAllError).1 rfl
  · have h := (fetch_error_policy srcOneThenError).2 1
      (fun _ => List.replicate 500 { date := 0, amount := 0 })
      (by omega) (by omega)
      (fun i hi => by
        have hi0 : i = 0 := by omega
        subst hi0
        exact ⟨rfl, List.length_replicate 500 _⟩)
      rfl
    rw [h, pagesFrom, pagesFrom, List.append_nil]

/-! ### String helpers (JS `toLowerCase`, `includes`, title casing) -/

/-- Does `pat` occur as a prefix of `s` (character lists)? -/
def charsMatchAt : List Char → List Char → Bool
  | [], _ => true
  | _ :: _, [] => false
  | p :: ps, c :: cs => p == c && charsMatchAt ps cs

/-- Does `pat` occur anywhere in `s` (character lists)? -/
def charsHave (pat : List Char) : List Char → Bool
  | [] => pat.isEmpty
  | c :: cs => charsMatchAt pat (c :: cs) || charsHave pat cs

/-- JS `s.includes(pat)`. -/
def strIncludes (s pat : String) : Bool :=
  charsHave pat.data s.data

/-- JS `s.toLowerCase()` (ASCII, which covers the matched literals). -/
def lowerStr (s : String) : String :=
  ⟨s.data.map Char.toLower⟩

/-- JS `word.charAt(0).toUpperCase() + word.slice(1).toLowerCase()`. -/
def titleWord : List Char → List Char
  | [] => []
  | c :: cs => c.toUpper :: cs.map Char.toLower

/-- The title-casing of the taxonomy's primary category in
`getDisplayCategory`: split on underscores, title-case each word, join with
spaces. -/
def titleCasePrimary (primary : String) : String :=
  String.intercalate " " ((primary.splitOn "_").map (fun w => ⟨titleWord w.data⟩))

/-! ### The Spending Aggregator (`SpendingAnalysis.tsx`) -/

/-- `getDisplayCategory` (SpendingAnalysis.tsx lines 47-72): the ordered
first-match-wins override table over the detailed category, falling back to
the title-cased primary; `null` when the transaction has no taxonomy. -/
def getDisplayCategory (tx : Tx) : Option String :=
  match tx.personal_finance_category with
  | none => none
  | some pfc =>
      if strIncludes pfc.detailed "GROCERIES" then some "Groceries"
      else if strIncludes pfc.detailed "RESTAURANT" then some "Restaurant"
      else if strIncludes pfc.detailed "FAST_FOOD" then some "Fast Food"
      else if strIncludes pfc.detailed "COFFEE" then some "Coffee"
      else if strIncludes pfc.detailed "BEER_WINE_AND_LIQUOR" then some "Alcohol"
      else if strIncludes pfc.detailed "TRANSPORTATION_GAS" then some "Gas"
      else if strIncludes pfc.detailed "TRANSPORTATION_PARKING" then some "Parking"
      else if strIncludes pfc.detailed "TRANSPORTATION_PUBLIC_TRANSIT" then
        some "Public Transit"
      else if strIncludes pfc.detailed "TRANSPORTATION_TOLLS" then some "Tolls"
      else if strIncludes pfc.detailed "INTERNET_AND_CABLE" then
        some "Internet & Cable"
      else if strIncludes pfc.detailed "GAS_AND_ELECTRICITY" then
        some "Gas & Electricity"
      else if strIncludes pfc.detailed "RENT_AND_UTILITIES_WATER" then some "Water"
      else if strIncludes pfc.detailed "RENT_AND_UTILITIES_TELEPHONE" then
        some "Phone"
      else if strIncludes pfc.detailed "HOME_IMPROVEMENT_HARDWARE" then
        some "Hardware"
      else some (titleCasePrimary pfc.primary)

/-- JS `a || b` on strings, where the empty string is falsy. -/
def jsStrOr (a : Option String) (b : String) : String :=
  match a with
  | some s => if s = "" then b else s
  | none => b

/-- JS `tx.category ? tx.category[0] : 'Uncategorized'`: a missing array
gives "Uncategorized"; an empty (truthy) array indexes to `undefined`, which
coerces to the object key "undefined". -/
def legacyCategoryHead (tx : Tx) : String :=
  match tx.category with
  | none => "Uncategorized"
  | some [] => "undefined"
  | some (c :: _) => c

/-- Calendar arithmetic the JS `Date` API supplies: civil (year, month, day)
of an epoch-day number (proleptic Gregorian, floored divisions are exact
here because the era shift makes every dividend non-negative). -/
def civilOfDay (z : Int) : Int × Int × Int :=
  let zs := z + 719468
  let era : Int := zs.fdiv 146097
  let doe : Int := zs - era * 146097
  let yoe : Int := (doe - doe.fdiv 1460 + doe.fdiv 36524 - doe.fdiv 146096).fdiv 365
  let y : Int := yoe + era * 400
  let doy : Int := doe - (365 * yoe + yoe.fdiv 4 - yoe.fdiv 100)
  let mp : Int := (5 * doy + 2).fdiv 153
  let d : Int := doy - (153 * mp + 2).fdiv 5 + 1
  let m : Int := mp + (if mp < 10 then 3 else -9)
  (y + (if m ≤ 2 then 1 else 0), m, d)

/-- JS `getDay()` of an epoch day (0 = Sunday; epoch day 0 was a Thursday). -/
def weekdayOf (z : Int) : Int :=
  (z + 4).emod 7

/-- The "YYYY-MM" month bucket key, encoded as a month index whose numeric
order coincides with the source's lexicographic order on the key strings. -/
def monthKey (z : Int) : Int :=
  12 * (civilOfDay z).1 + ((civilOfDay z).2.1 - 1)

/-- The chart's time buckets. -/
inductive TimePeriod where
  | day | week | month
deriving DecidableEq

/-- The chart's grouping dimensions. -/
inductive GroupBy where
  | category | account | institution
deriving DecidableEq

/-- The bucket key of a transaction (`periodKey` in `chartData`): the ISO
day, the ISO day of the week's Sunday, or the "YYYY-MM" month, each encoded
as an integer with the same ordering as the source's key strings. -/
def periodKeyOf : TimePeriod → Tx → Int
  | .day, tx => tx.date
  | .week, tx => tx.date - weekdayOf tx.date
  | .month, tx => monthKey tx.date

/-- The group key of a transaction (`key` in `chartData`): display category
with legacy fallback, institution-qualified account name, or institution
name, with the source's account lookup in the linked accounts first and the
imported accounts second. -/
def groupKeyOf (dim : GroupBy) (accounts importedAccounts : List Account)
    (tx : Tx) : String :=
  match dim with
  | .category => jsStrOr (getDisplayCategory tx) (legacyCategoryHead tx)
  | .account =>
      match (accounts.find? (fun a => a.account_id == tx.account_id)).orElse
          (fun _ => importedAccounts.find? (fun a => a.account_id == tx.account_id)) with
      | some a => a.institution_name ++ " - " ++ a.name
      | none => "Unknown"
  | .institution =>
      match (accounts.find? (fun a => a.account_id == tx.account_id)).orElse
          (fun _ => importedAccounts.find? (fun a => a.account_id == tx.account_id)) with
      | some a => a.institution_name
      | none => "Unknown"

/-- The distinct elements of a list, first occurrences, in order (models
both the insertion order of the `groupedByPeriod` object keys and the
iteration order of the `groupKeys` set). -/
def firstOccs : List Int → List Int
  | [] => []
  | x :: xs => x :: (firstOccs xs).filter (fun y => y != x)

/-- As `firstOccs`, for string keys. -/
def firstOccsStr : List String → List String
  | [] => []
  | x :: xs => x :: (firstOccsStr xs).filter (fun y => y != x)

/-- `chartData` (SpendingAnalysis.tsx lines 424-517): bucket the filtered
transactions by period key, sort the buckets by key, and give every row one
summed value per group key observed anywhere in the filtered set (zero where
the bucket has no transactions of that group). -/
def chartData (pkey : Tx → Int) (gkey : Tx → String) (txs : List Tx) :
    List (Int × List (String × Int)) :=
  (List.insertionSort (· ≤ ·) (firstOccs (txs.map pkey))).map (fun p =>
    (p, (firstOccsStr (txs.map gkey)).map (fun g =>
      (g, (((txs.filter (fun tx => pkey tx == p)).filter
        (fun tx => gkey tx == g)).map Tx.amount).sum))))

/-! ### The spending-table filter (`sortedTransactions`, SpendingAnalysis) -/

/-- The filter step of `sortedTransactions` (SpendingAnalysis.tsx lines
376-385): drop money-in (negative) transactions of depository accounts; the
lookup uses the linked accounts only, so imported-account transactions are
always kept. -/
def filterSpending (accounts : List Account) (txs : List Tx) : List Tx :=
  txs.filter (fun tx =>
    match accounts.find? (fun a => a.account_id == tx.account_id) with
    | some a => !(a.type == "depository" && decide (tx.amount < 0))
    | none => true)

/-! ### The credit-card re-signing heuristic (part_006 lines 636-645) -/

/-- The per-transaction re-signing of `fetchData`: the source condition is
`tx.amount > 0 && name.includes('automatic payment') ||
name.includes('payment - thank')` — `&&` binds tighter than `||`, so the
`payment - thank` match negates regardless of sign. -/
def resignTx (tx : Tx) : Tx :=
  if (decide (0 < tx.amount) && strIncludes (lowerStr tx.name) "automatic payment")
      || strIncludes (lowerStr tx.name) "payment - thank" then
    { tx with amount := -tx.amount }
  else tx

/-- The account-level guard: the mapping runs only for accounts of type
`credit` or subtype `credit card`. -/
def resignFetched (acct : Account) (txs : List Tx) : List Tx :=
  if acct.type == "credit" || acct.subtype == "credit card" then
    txs.map resignTx
  else txs

/-! ### Aggregation lemmas -/

theorem mem_firstOccs {x : Int} : ∀ {l : List Int}, x ∈ firstOccs l ↔ x ∈ l := by
  intro l
  induction l with
  | nil => rfl
  | cons y ys ih =>
      rw [firstOccs]
      by_cases hxy : x = y
      · subst hxy
        simp
      · simp only [List.mem_cons, List.mem_filter, bne_iff_ne]
        constructor
        · rintro (rfl | ⟨hx, _⟩)
          · exact Or.inl rfl
          · exact Or.inr (ih.1 hx)
        · rintro (rfl | hx)
          · exact Or.inl rfl
          · exact Or.inr ⟨ih.2 hx, hxy⟩

theorem nodup_firstOccs : ∀ l : List Int, (firstOccs l).Nodup := by
  intro l
  induction l with
  | nil => exact List.nodup_nil
  | cons y ys ih =>
      rw [firstOccs, List.nodup_cons]
      constructor
      · intro hy
        have := (List.mem_filter.1 hy).2
        simp at this
      · exact List.Nodup.filter _ ih

theorem mem_firstOccsStr {x : String} : ∀ {l : List String},
    x ∈ firstOccsStr l ↔ x ∈ l := by
  intro l
  induction l with
  | nil => rfl
  | cons y ys ih =>
      rw [firstOccsStr]
      by_cases hxy : x = y
      · subst hxy
        simp
      · simp only [List.mem_cons, List.mem_filter, bne_iff_ne]
        constructor
        · rintro (rfl | ⟨hx, _⟩)
          · exact Or.inl rfl
          · exact Or.inr (ih.1 hx)
        · rintro (rfl | hx)
          · exact Or.inl rfl
          · exact Or.inr ⟨ih.2 hx, hxy⟩

theorem nodup_firstOccsStr : ∀ l : List String, (firstOccsStr l).Nodup := by
  intro l
  induction l with
  | nil => exact List.nodup_nil
  | cons y ys ih =>
      rw [firstOccsStr, List.nodup_cons]
      constructor
      · intro hy
        have := (List.mem_filter.1 hy).2
        simp at this
      · exact List.Nodup.filter _ ih

theorem sum_filter_split {α : Type} (f : α → Int) (p : α → Bool) :
    ∀ l : List α,
      ((l.filter p).map f).sum + ((l.filter (fun x => !(p x))).map f).sum
        = (l.map f).sum := by
  intro l
  induction l with
  | nil => rfl
  | cons x xs ih =>
      by_cases hp : p x = true
      · simp [List.filter_cons, hp]
        omega
      · rw [Bool.not_eq_true] at hp
        simp [List.filter_cons, hp]
        omega

theorem sum_partition {K : Type} [BEq K] [LawfulBEq K] (key : Tx → K)
    (f : Tx → Int) :
    ∀ (ks : List K) (l : List Tx), ks.Nodup → (∀ x ∈ l, key x ∈ ks) →
      (ks.map (fun k => ((l.filter (fun x => key x == k)).map f).sum)).sum
        = (l.map f).sum := by
  intro ks
  induction ks with
  | nil =>
      intro l _ hcomp
      rcases l with _ | ⟨x, xs⟩
      · rfl
      · exact absurd (hcomp x (by simp)) (by simp)
  | cons k ks ih =>
      intro l hnd hcomp
      have hknotin : k ∉ ks := (List.nodup_cons.1 hnd).1
      rw [List.map_cons, List.sum_cons]
      have hA : ∀ k' ∈ ks, l.filter (fun x => key x == k')
          = (l.filter (fun x => !(key x == k))).filter (fun x => key x == k') := by
        intro k' hk'
        rw [List.filter_filter]
        apply List.filter_congr
        intro x _
        by_cases hx : key x = k'
        · have hk'k : (k' == k) = false := by
            rw [beq_eq_false_iff_ne]
            intro he
            exact hknotin (he ▸ hk')
          simp [hx, hk'k]
        · have : (key x == k') = false := by
            rw [beq_eq_false_iff_ne]
            exact hx
          simp [this]
      have hsum2 : (ks.map (fun k' =>
          ((l.filter (fun x => key x == k')).map f).sum)).sum
          = ((l.filter (fun x => !(key x == k))).map f).sum := by
        rw [List.map_congr_left (fun k' hk' => by rw [hA k' hk'])]
        apply ih
        · exact (List.nodup_cons.1 hnd).2
        · intro x hx
          rcases List.mem_filter.1 hx with ⟨hxl, hxk⟩
          rcases List.mem_cons.1 (hcomp x hxl) with h | h
          · rw [h] at hxk
            simp at hxk
          · exact h
      rw [hsum2, sum_filter_split]

theorem chartData_total (pkey : Tx → Int) (gkey : Tx → String) (txs : List Tx) :
    ((chartData pkey gkey txs).map (fun row => (row.2.map Prod.snd).sum)).sum
      = (txs.map Tx.amount).sum := by
  have hrow : ∀ p : Int,
      (((firstOccsStr (txs.map gkey)).map (fun g =>
        (g, (((txs.filter (fun tx => pkey tx == p)).filter
          (fun tx => gkey tx == g)).map Tx.amount).sum))).map Prod.snd).sum
      = ((txs.filter (fun tx => pkey tx == p)).map Tx.amount).sum := by
    intro p
    rw [List.map_map]
    exact sum_partition gkey Tx.amount _ _ (nodup_firstOccsStr _)
      (fun x hx => mem_firstOccsStr.2
        (List.mem_map.2 ⟨x, (List.mem_filter.1 hx).1, rfl⟩))
  have hmapped : (chartData pkey gkey txs).map
      (fun row => (row.2.map Prod.snd).sum)
      = (List.insertionSort (· ≤ ·) (firstOccs (txs.map pkey))).map (fun p =>
          ((txs.filter (fun tx => pkey tx == p)).map Tx.amount).sum) := by
    unfold chartData
    rw [List.map_map]
    apply List.map_congr_left
    intro p _
    exact hrow p
  rw [hmapped,
    List.Perm.sum_eq ((List.perm_insertionSort (· ≤ ·)
      (firstOccs (txs.map pkey))).map _)]
  exact sum_partition pkey Tx.amount _ txs (nodup_firstOccs _)
    (fun x hx => mem_firstOccs.2 (List.mem_map.2 ⟨x, hx, rfl⟩))

theorem chartData_periods (pkey : Tx → Int) (gkey : Tx → String) (txs : List Tx) :
    (chartData pkey gkey txs).map Prod.fst
      = List.insertionSort (· ≤ ·) (firstOccs (txs.map pkey)) := by
  unfold chartData
  rw [List.map_map]
  exact List.map_id _

theorem chartData_row_groups (pkey : Tx → Int) (gkey : Tx → String)
    (txs : List Tx) :
    ∀ row ∈ chartData pkey gkey txs,
      (∀ tx ∈ txs, ∃ v, (gkey tx, v) ∈ row.2) ∧
      (∀ gv ∈ row.2,
        (∀ tx ∈ txs, pkey tx = row.1 → gkey tx ≠ gv.1) → gv.2 = 0) := by
  intro row hrowmem
  unfold chartData at hrowmem
  rcases List.mem_map.1 hrowmem with ⟨p, _, rfl⟩
  constructor
  · intro tx htx
    exact ⟨_, List.mem_map.2 ⟨gkey tx,
      mem_firstOccsStr.2 (List.mem_map.2 ⟨tx, htx, rfl⟩), rfl⟩⟩
  · intro gv hgv habs
    rcases List.mem_map.1 hgv with ⟨g, _, rfl⟩
    have hnil : (txs.filter (fun tx => pkey tx == p)).filter
        (fun tx => gkey tx == g) = [] := by
      rw [List.filter_eq_nil_iff]
      intro tx htx
      rcases List.mem_filter.1 htx with ⟨htxl, hpk⟩
      have hpk' : pkey tx = p := by simpa using hpk
      have hne := habs tx htxl hpk'
      simpa using hne
    rw [hnil]
    rfl

/-- C8: for every time bucket and grouping dimension, the sum of all group
values over all chart rows equals the sum of the filtered transactions'
amounts; every row carries an entry for every group key observed anywhere in
the filtered set, zero where the row's bucket has no transactions of that
group; and the rows are sorted chronologically by bucket key. -/
theorem spending_aggregation_props (tp : TimePeriod) (dim : GroupBy)
    (accounts importedAccounts : List Account) (txs : List Tx) :
    ((chartData (periodKeyOf tp) (groupKeyOf dim accounts importedAccounts)
        txs).map (fun row => (row.2.map Prod.snd).sum)).sum
      = (txs.map Tx.amount).sum ∧
    (∀ row ∈ chartData (periodKeyOf tp)
        (groupKeyOf dim accounts importedAccounts) txs,
      (∀ tx ∈ txs, ∃ v,
        (groupKeyOf dim accounts importedAccounts tx, v) ∈ row.2) ∧
      (∀ gv ∈ row.2,
        (∀ tx ∈ txs, periodKeyOf tp tx = row.1 →
          groupKeyOf dim accounts importedAccounts tx ≠ gv.1) → gv.2 = 0)) ∧
    ((chartData (periodKeyOf tp) (groupKeyOf dim accounts importedAccounts)
        txs).map Prod.fst).Sorted (· ≤ ·) := by
  refine ⟨chartData_total _ _ _, chartData_row_groups _ _ _, ?_⟩
  rw [chartData_periods]
  exact List.sorted_insertionSort _ _

/-- A transaction in legacy category "A". -/
def txCatA : Tx := { date := 0, amount := 3, category := some ["A"] }

/-- A transaction in legacy category "B". -/
def txCatB : Tx := { date := 1, amount := 4, category := some ["B"] }

/-- Witness for C8 at a concrete input: the totals equation for two
transactions bucketed by day and grouped by category. -/
theorem spending_aggregation_props_witness :
    ((chartData (periodKeyOf .day) (groupKeyOf .category [] [])
        [txCatA, txCatB]).map (fun row => (row.2.map Prod.snd).sum)).sum
      = (([txCatA, txCatB] : List Tx).map Tx.amount).sum :=
  (spending_aggregation_props .day .category [] [] [txCatA, txCatB]).1

/-! ### C9 and C10 -/

/-- A credit account, for the C9 evaluation. -/
def acctCredit : Account := { account_id := "acc1", type := "credit" }

/-- A money-in (negative) credit-card payment whose name matches the
`payment - thank` substring. -/
def txThankYou : Tx :=
  { account_id := "acc1", date := 0, name := "Payment - Thank You",
    amount := -2500 }

/-- C9: evaluating the re-sign heuristic at the failing input. Because `&&`
binds tighter than `||` in the source condition, a transaction whose name
matches `payment - thank` is negated even when its amount is already
negative: the money-in payment of -2500 becomes a +2500 money-out, the
opposite of the fix the code's own comment describes. -/
theorem credit_resign_bug_eval :
    resignFetched acctCredit [txThankYou]
      = [{ txThankYou with amount := 2500 }] ∧
    ({ txThankYou with amount := 2500 } : Tx) ≠ txThankYou := by
  constructor
  · decide
  · decide

/-- C10: in the spending-analysis filter, a transaction resolving (via the
linked-account lookup) to a depository account and carrying a negative
amount is excluded; a transaction whose resolved account is not depository
(e.g. credit) is retained, as is any transaction with no matching linked
account (imported accounts); and non-negative amounts are always
retained. -/
theorem depository_money_in_filter (accounts : List Account) (txs : List Tx) :
    (∀ tx ∈ txs, ∀ a,
      accounts.find? (fun a => a.account_id == tx.account_id) = some a →
      a.type = "depository" → tx.amount < 0 →
      tx ∉ filterSpending accounts txs) ∧
    (∀ tx ∈ txs,
      (∀ a, accounts.find? (fun a => a.account_id == tx.account_id) = some a →
        a.type ≠ "depository") →
      tx ∈ filterSpending accounts txs) ∧
    (∀ tx ∈ txs, 0 ≤ tx.amount → tx ∈ filterSpending accounts txs) := by
  refine ⟨?_, ?_, ?_⟩
  · intro tx htx a hfind htype hneg hmem
    have hpred := (List.mem_filter.1 hmem).2
    rw [hfind] at hpred
    simp only [htype] at hpred
    simp [hneg] at hpred
  · intro tx htx hnotdep
    rw [filterSpending, List.mem_filter]
    refine ⟨htx, ?_⟩
    rcases hfind : accounts.find? (fun a => a.account_id == tx.account_id)
      with _ | a
    · rw [hfind]
    · rw [hfind]
      have hb : (a.type == "depository") = false :=
        beq_eq_false_iff_ne.2 (hnotdep a hfind)
      simp [hb]
  · intro tx htx hpos
    rw [filterSpending, List.mem_filter]
    refine ⟨htx, ?_⟩
    rcases hfind : accounts.find? (fun a => a.account_id == tx.account_id)
      with _ | a
    · rw [hfind]
    · rw [hfind]
      have hlt : ¬ tx.amount < 0 := by omega
      simp [hlt]

/-- A depository account, for the C10 witness. -/
def acctChecking : Account := { account_id := "dep1", type := "depository" }

/-- A money-in transaction of the depository account. -/
def txDepositIn : Tx := { account_id := "dep1", date := 0, amount := -100 }

/-- A money-in transaction of the credit account. -/
def txCreditIn : Tx := { account_id := "acc1", date := 0, amount := -100 }

/-- Witness for C10 at a concrete input: the depository money-in transaction
is dropped while the credit-account money-in transaction is kept. -/
theorem depository_money_in_filter_witness :
    txDepositIn ∉ filterSpending [acctChecking, acctCredit]
      [txDepositIn, txCreditIn] ∧
    txCreditIn ∈ filterSpending [acctChecking, acctCredit]
      [txDepositIn, txCreditIn] := by
  constructor
  · exact (depository_money_in_filter [acctChecking, acctCredit]
      [txDepositIn, txCreditIn]).1 txDepositIn (by decide) acctChecking
      (by decide) rfl (by decide)
  · exact (depository_money_in_filter [acctChecking, acctCredit]
      [txDepositIn, txCreditIn]).2.1 txCreditIn (by decide)
      (fun a ha => by
        have hfind : List.find? (fun a => a.account_id == txCreditIn.account_id)
            [acctChecking, acctCredit] = some acctCredit := by decide
        rw [hfind] at ha
        injection ha with e
        rw [← e]
        decide)
